import Mathlib

/-
Verification of the typeracer-tui game core (Go) against its specification.

Shallow embedding conventions:
* Go strings are `List Char`; `len` is `List.length` (byte-level indexing in
  the source is abstracted to character-level, which is faithful for the
  per-index comparisons the code performs).
* `time.Time` values are rational timestamps measured in minutes, so that
  `d.Minutes()` of a difference is plain subtraction and `t1.After(t2)` is
  `t1 > t2`; every call to `time.Now()` in the source becomes an explicit
  `now` parameter.
* `float64` statistics (WPM, accuracy) are rationals.
* Go `map[string]*X` registries are association lists with map semantics:
  insertion overwrites the first binding of the key or appends, deletion
  removes every binding of the key, lookup takes the first binding.
  Pointer sharing between registries is modelled by updating each registry
  that the source mutates.
* `uuid.New().String()` becomes an explicit id argument, and the quote
  fetched from the network becomes an explicit `Quote` argument.
* Functions returning `(T, error)` return a product with `Option GameError`;
  `none` is the `nil` error.
* The countdown goroutine (`runCountdown`) is asynchronous and is not
  modelled; `Session.start` models the synchronous body of `Session.Start`.
-/

namespace TypeRacer

/-- Association-list lookup: first binding of the key (Go map read). -/
def lookupA {α : Type} (l : List (String × α)) (k : String) : Option α :=
  match l with
  | [] => none
  | (k', v) :: t => if k' = k then some v else lookupA t k

/-- Association-list insert: overwrite the first binding or append
(Go map write `m[k] = v`). -/
def insertA {α : Type} (l : List (String × α)) (k : String) (v : α) :
    List (String × α) :=
  match l with
  | [] => [(k, v)]
  | (k', v') :: t => if k' = k then (k, v) :: t else (k', v') :: insertA t k v

/-- Association-list erase: drop every binding of the key (Go `delete`). -/
def eraseA {α : Type} (l : List (String × α)) (k : String) :
    List (String × α) :=
  l.filter (fun kv => kv.1 ≠ k)

/-- Number of entries (Go `len` of a map, for lists with map semantics). -/
def sizeA {α : Type} (l : List (String × α)) : Nat := l.length

/-- Keys of an association list. -/
def keysA {α : Type} (l : List (String × α)) : List String :=
  l.map Prod.fst

/-- The error values produced by the game package (`fmt.Errorf` messages). -/
inductive GameError : Type
  /-- "player already exists" -/
  | playerExists
  /-- "player not found" -/
  | playerNotFound
  /-- "lobby not found" -/
  | lobbyNotFound
  /-- "lobby is full" -/
  | lobbyFull
  /-- "not enough players to start session" -/
  | notEnoughPlayers
  /-- "session is full" -/
  | sessionFull
  /-- "session has already started" -/
  | sessionAlreadyStarted
  /-- "session is already active" -/
  | sessionAlreadyActive
  /-- "not enough players to start" -/
  | notEnoughToStart
  /-- "player not in any session" -/
  | playerNotInSession
  deriving DecidableEq, Repr

/-- `game.Player` (player.go). -/
structure Player : Type where
  id : String
  name : String
  sessionID : String
  currentPos : Nat
  typedInput : List Char
  startTime : ℚ
  endTime : ℚ
  isFinished : Bool
  wpm : ℚ
  accuracy : ℚ
  correctChars : Nat
  totalChars : Nat
  lastUpdate : ℚ
  deriving DecidableEq, Repr

/-- `NewPlayer` (player.go): zero values for the fields the constructor does
not set (`EndTime`, `CorrectChars`, `TotalChars`). -/
def newPlayer (id name sessionID : String) (now : ℚ) : Player :=
  { id := id
    name := name
    sessionID := sessionID
    currentPos := 0
    typedInput := []
    startTime := now
    endTime := 0
    isFinished := false
    wpm := 0
    accuracy := 0
    correctChars := 0
    totalChars := 0
    lastUpdate := now }

/-- The loop body of `calculateAccuracy`: the number of indices
`i < min (len typed) (len prompt)` with `typed[i] == prompt[i]`. -/
def countCorrect (typed prompt : List Char) : Nat :=
  (typed.zip prompt).countP (fun ab => ab.1 = ab.2)

/-- `Player.calculateAccuracy` (player.go). On an empty prompt it returns
early, setting only `Accuracy`; otherwise it sets `CorrectChars`,
`TotalChars` and `Accuracy` from the clamped comparison. -/
def Player.calculateAccuracy (p : Player) (prompt : List Char) : Player :=
  if prompt.length = 0 then
    { p with accuracy := 0 }
  else
    let total := min p.typedInput.length prompt.length
    let correct := countCorrect p.typedInput prompt
    { p with
      correctChars := correct
      totalChars := total
      accuracy :=
        if 0 < total then (correct : ℚ) / (total : ℚ) * 100 else 0 }

/-- `Player.calculateWPM` (player.go): when finished, uses the frozen
`EndTime - StartTime` elapsed; otherwise elapsed up to `now`; in either
branch `WPM` is left unchanged unless the elapsed time is positive. -/
def Player.calculateWPM (p : Player) (now : ℚ) : Player :=
  if p.isFinished then
    let elapsed := p.endTime - p.startTime
    if 0 < elapsed then
      { p with wpm := (p.correctChars : ℚ) / 5 / elapsed }
    else p
  else
    let elapsed := now - p.startTime
    if 0 < elapsed then
      { p with wpm := (p.correctChars : ℚ) / 5 / elapsed }
    else p

/-- `Player.UpdateProgress` (player.go). -/
def Player.updateProgress (p : Player) (typedInput prompt : List Char)
    (now : ℚ) : Player :=
  let p := { p with
    typedInput := typedInput
    currentPos := typedInput.length
    lastUpdate := now }
  let p := p.calculateAccuracy prompt
  p.calculateWPM now

/-- `Player.Finish` (player.go): unconditionally sets the flag, captures the
end time and recomputes WPM. -/
def Player.finish (p : Player) (now : ℚ) : Player :=
  let p := { p with isFinished := true, endTime := now }
  p.calculateWPM now

/-- `Player.IsComplete` (player.go). -/
def Player.isComplete (p : Player) (promptLength : Nat) : Bool :=
  p.currentPos ≥ promptLength

/-- `game.Session` (session.go). `MaxPlayers` is a Go `int`, so it is an
integer here (the source never validates it). -/
structure Session : Type where
  id : String
  prompt : List Char
  author : String
  players : List (String × Player)
  maxPlayers : Int
  startTime : ℚ
  endTime : ℚ
  isActive : Bool
  isFinished : Bool
  countdown : Int
  deriving DecidableEq, Repr

/-- `NewSession` (session.go): zero values for `StartTime`/`EndTime`. -/
def newSession (id : String) (prompt : List Char) (author : String)
    (maxPlayers : Int) : Session :=
  { id := id
    prompt := prompt
    author := author
    players := []
    maxPlayers := maxPlayers
    startTime := 0
    endTime := 0
    isActive := false
    isFinished := false
    countdown := 0 }

/-- `Session.AddPlayer` (session.go): rejects a full or already-started
session, otherwise stores the player under its id. -/
def Session.addPlayer (s : Session) (p : Player) :
    Session × Option GameError :=
  if (sizeA s.players : Int) ≥ s.maxPlayers then
    (s, some .sessionFull)
  else if s.isActive then
    (s, some .sessionAlreadyStarted)
  else
    ({ s with players := insertA s.players p.id p }, none)

/-- `Session.RemovePlayer` (session.go): deletes the roster entry only. -/
def Session.removePlayer (s : Session) (playerID : String) : Session :=
  { s with players := eraseA s.players playerID }

/-- `Session.GetPlayer` (session.go). -/
def Session.getPlayer (s : Session) (playerID : String) : Option Player :=
  lookupA s.players playerID

/-- `Session.Start` (session.go): the synchronous body; the countdown
goroutine it spawns is not modelled. -/
def Session.start (s : Session) (now : ℚ) : Session × Option GameError :=
  if s.isActive then
    (s, some .sessionAlreadyActive)
  else if sizeA s.players < 2 then
    (s, some .notEnoughToStart)
  else
    ({ s with isActive := true, startTime := now, countdown := 3 }, none)

/-- `Session.checkCompletion` (session.go): once every roster member is
finished, mark the session finished and capture the end time. -/
def Session.checkCompletion (s : Session) (now : ℚ) : Session :=
  if s.isFinished then s
  else if s.players.all (fun kv => kv.2.isFinished) then
    { s with isFinished := true, endTime := now }
  else s

/-- `Session.UpdatePlayerProgress` (session.go): update the named player,
finish it when it completed the prompt and was not yet finished, then run
the completion check. Unknown players are a no-op. -/
def Session.updatePlayerProgress (s : Session) (playerID : String)
    (typedInput : List Char) (now : ℚ) : Session :=
  match lookupA s.players playerID with
  | none => s
  | some player =>
    let player := player.updateProgress typedInput s.prompt now
    let player :=
      if player.isComplete s.prompt.length && !player.isFinished then
        player.finish now
      else player
    let s := { s with players := insertA s.players playerID player }
    s.checkCompletion now

/-- The per-player step inside `Session.UpdatePlayerProgress` (session.go
lines 136-141), named so the lemmas below can refer to it: apply the
progress update, then finish the player when it completed the prompt and
was not yet finished. `Session.updatePlayerProgress` is definitionally
this step followed by the roster write-back and `checkCompletion`. -/
def Session.progressStep (s : Session) (p : Player) (t : List Char)
    (now : ℚ) : Player :=
  let player := p.updateProgress t s.prompt now
  if player.isComplete s.prompt.length && !player.isFinished then
    player.finish now
  else player

/-- One comparison-and-swap of the `GetLeaderboard` nested loops
(session.go lines 179-190), at positions `i < j`. -/
def lbSwapStep (a : Array Player) (i j : Nat) : Array Player :=
  match a[i]?, a[j]? with
  | some pi, some pj =>
    if pi.isFinished && pj.isFinished then
      if pi.endTime > pj.endTime then (a.set! i pj).set! j pi else a
    else if pi.isFinished && !pj.isFinished then
      (a.set! i pj).set! j pi
    else a
  | _, _ => a

/-- The `GetLeaderboard` sort (session.go): `for i; for j := i+1`, the inner
start at `i+1` encoded by the `i < j` guard. -/
def leaderboardSort (a : Array Player) : Array Player :=
  (List.range a.size).foldl
    (fun acc i =>
      (List.range a.size).foldl
        (fun acc2 j => if i < j then lbSwapStep acc2 i j else acc2) acc)
    a

/-- `Session.GetLeaderboard` (session.go): collect the roster (association
order stands in for Go's arbitrary map order) and run the swap sort. -/
def Session.getLeaderboard (s : Session) : Array Player :=
  leaderboardSort (Array.mk (s.players.map Prod.snd))

/-- `game.Lobby` (manager.go). -/
structure Lobby : Type where
  id : String
  players : List (String × Player)
  maxPlayers : Int
  createdAt : ℚ
  deriving DecidableEq, Repr

/-- `Lobby.AddPlayer` (manager.go): rejects a full lobby. -/
def Lobby.addPlayer (l : Lobby) (p : Player) : Lobby × Option GameError :=
  if (sizeA l.players : Int) ≥ l.maxPlayers then
    (l, some .lobbyFull)
  else
    ({ l with players := insertA l.players p.id p }, none)

/-- `Lobby.RemovePlayer` (manager.go). -/
def Lobby.removePlayer (l : Lobby) (playerID : String) : Lobby :=
  { l with players := eraseA l.players playerID }

/-- `Lobby.IsReady` (manager.go). -/
def Lobby.isReady (l : Lobby) : Bool :=
  sizeA l.players ≥ 2

/-- `quotes.Quote` (fetcher.go). -/
structure Quote : Type where
  content : List Char
  author : String
  deriving DecidableEq, Repr

/-- `game.Manager` (manager.go): the three registries. -/
structure Manager : Type where
  sessions : List (String × Session)
  players : List (String × Player)
  lobbies : List (String × Lobby)
  deriving DecidableEq, Repr

/-- `NewManager` (manager.go). -/
def newManager : Manager :=
  { sessions := [], players := [], lobbies := [] }

/-- `Manager.AddPlayer` (manager.go): rejects an existing id, else registers
`NewPlayer(playerID, playerName, "")`. -/
def Manager.addPlayer (m : Manager) (playerID playerName : String)
    (now : ℚ) : Manager × Option Player × Option GameError :=
  match lookupA m.players playerID with
  | some _ => (m, none, some .playerExists)
  | none =>
    let player := newPlayer playerID playerName "" now
    ({ m with players := insertA m.players playerID player },
      some player, none)

/-- `Manager.RemovePlayer` (manager.go): remove the player from every
session and lobby, dropping the containers that become empty, then delete
the registry entry. -/
def Manager.removePlayer (m : Manager) (playerID : String) : Manager :=
  { m with
    sessions :=
      (m.sessions.map (fun kv => (kv.1, kv.2.removePlayer playerID))).filter
        (fun kv => sizeA kv.2.players ≠ 0)
    lobbies :=
      (m.lobbies.map (fun kv => (kv.1, kv.2.removePlayer playerID))).filter
        (fun kv => sizeA kv.2.players ≠ 0)
    players := eraseA m.players playerID }

/-- `Manager.CreateLobby` (manager.go): no validation of `maxPlayers`; the
generated uuid is the explicit `newId`. The Go `error` result is always
`nil`, modelled by the constant `none` component. -/
def Manager.createLobby (m : Manager) (maxPlayers : Int) (newId : String)
    (now : ℚ) : Manager × Lobby × Option GameError :=
  let lobby : Lobby :=
    { id := newId, players := [], maxPlayers := maxPlayers, createdAt := now }
  ({ m with lobbies := insertA m.lobbies newId lobby }, lobby, none)

/-- `Manager.JoinLobby` (manager.go): the source mutates the shared
`*Player` (its `SessionID`), which both the lobby map and the player
registry observe; modelled by writing the updated player to both. -/
def Manager.joinLobby (m : Manager) (playerID lobbyID : String) :
    Manager × Option GameError :=
  match lookupA m.players playerID with
  | none => (m, some .playerNotFound)
  | some player =>
    match lookupA m.lobbies lobbyID with
    | none => (m, some .lobbyNotFound)
    | some lobby =>
      if (sizeA lobby.players : Int) ≥ lobby.maxPlayers then
        (m, some .lobbyFull)
      else
        let player := { player with sessionID := lobbyID }
        let lobby :=
          { lobby with players := insertA lobby.players playerID player }
        ({ m with
            lobbies := insertA m.lobbies lobbyID lobby
            players := insertA m.players playerID player }, none)

/-- `Manager.LeaveLobby` (manager.go): remove from the lobby when it
exists, dropping the lobby once empty. -/
def Manager.leaveLobby (m : Manager) (playerID lobbyID : String) : Manager :=
  match lookupA m.lobbies lobbyID with
  | none => m
  | some lobby =>
    let lobby := lobby.removePlayer playerID
    if sizeA lobby.players = 0 then
      { m with lobbies := eraseA m.lobbies lobbyID }
    else
      { m with lobbies := insertA m.lobbies lobbyID lobby }

/-- `Manager.StartSessionFromLobby` (manager.go): guard on existence and
`>= 2` members, create the session with the lobby's capacity, move every
lobby member into it (the `AddPlayer` error is discarded, as in the
source), write the mutated `SessionID` back through the shared pointers,
register the session and delete the lobby. The fetched quote and the
generated uuid are explicit arguments. -/
def Manager.startSessionFromLobby (m : Manager) (lobbyID : String)
    (newSessionId : String) (quote : Quote) :
    Manager × Option Session × Option GameError :=
  match lookupA m.lobbies lobbyID with
  | none => (m, none, some .lobbyNotFound)
  | some lobby =>
    if sizeA lobby.players < 2 then
      (m, none, some .notEnoughPlayers)
    else
      let session :=
        lobby.players.foldl
          (fun s kv =>
            (s.addPlayer { kv.2 with sessionID := newSessionId }).1)
          (newSession newSessionId quote.content quote.author
            lobby.maxPlayers)
      let players :=
        lobby.players.foldl
          (fun ps kv =>
            insertA ps kv.1 { kv.2 with sessionID := newSessionId })
          m.players
      ({ m with
          sessions := insertA m.sessions newSessionId session
          players := players
          lobbies := eraseA m.lobbies lobbyID },
        some session, none)

/-- `Manager.UpdatePlayerProgress` (manager.go): first a direct read of the
session registry at `playerID` (only a session whose id equals the player
id is found this way), then a scan for a session containing the player
(Go's arbitrary map order becomes list order), else the error. -/
def Manager.updatePlayerProgress (m : Manager) (playerID : String)
    (typedInput : List Char) (now : ℚ) : Manager × Option GameError :=
  match lookupA m.sessions playerID with
  | some s =>
    let s := s.updatePlayerProgress playerID typedInput now
    ({ m with sessions := insertA m.sessions playerID s }, none)
  | none =>
    match m.sessions.find?
        (fun kv => (lookupA kv.2.players playerID).isSome) with
    | some kv =>
      let s := kv.2.updatePlayerProgress playerID typedInput now
      ({ m with sessions := insertA m.sessions kv.1 s }, none)
    | none => (m, some .playerNotInSession)

/-- The states reachable through the `Manager` API, from `NewManager`;
the id, quote and clock inputs are arbitrary. -/
inductive Reachable : Manager → Prop
  | new : Reachable newManager
  | addPlayer {m} (playerID playerName : String) (now : ℚ) :
      Reachable m → Reachable (m.addPlayer playerID playerName now).1
  | removePlayer {m} (playerID : String) :
      Reachable m → Reachable (m.removePlayer playerID)
  | createLobby {m} (maxPlayers : Int) (newId : String) (now : ℚ) :
      Reachable m → Reachable (m.createLobby maxPlayers newId now).1
  | joinLobby {m} (playerID lobbyID : String) :
      Reachable m → Reachable (m.joinLobby playerID lobbyID).1
  | leaveLobby {m} (playerID lobbyID : String) :
      Reachable m → Reachable (m.leaveLobby playerID lobbyID)
  | startSessionFromLobby {m} (lobbyID newSessionId : String) (quote : Quote) :
      Reachable m →
      Reachable (m.startSessionFromLobby lobbyID newSessionId quote).1
  | updatePlayerProgress {m} (playerID : String) (typedInput : List Char)
      (now : ℚ) :
      Reachable m → Reachable (m.updatePlayerProgress playerID typedInput now).1

/-- The capacity invariant: every lobby and every session holds at most
`max MaxPlayers 0` members (for the nonnegative capacities the code is
used with, that is `MaxPlayers` itself). -/
def CapInv (m : Manager) : Prop :=
  (∀ kv ∈ m.lobbies, (sizeA kv.2.players : Int) ≤ max kv.2.maxPlayers 0) ∧
  (∀ kv ∈ m.sessions, (sizeA kv.2.players : Int) ≤ max kv.2.maxPlayers 0)

/-! ### Concrete states used to evaluate the operations -/

/-- A player who finished the race at time 1. -/
def finishedRacer : Player :=
  { newPlayer "a" "A" "" 0 with isFinished := true, endTime := 1 }

/-- A player still racing. -/
def activeRacer : Player := newPlayer "b" "B" "" 0

/-- A session whose roster holds one finished and one unfinished player. -/
def sessionFU : Session :=
  { newSession "S" ['h', 'i'] "q" 4 with
    players := [("a", finishedRacer), ("b", activeRacer)] }

/-- A manager built through the API: players `p`, `q`; `p` and `q` join
lobby `A`, and `p` also joins lobby `B`. -/
def managerTwoLobbies : Manager :=
  let m := newManager
  let m := (m.addPlayer "p" "P" 0).1
  let m := (m.addPlayer "q" "Q" 0).1
  let m := (m.createLobby 4 "A" 0).1
  let m := (m.createLobby 4 "B" 0).1
  let m := (m.joinLobby "p" "A").1
  let m := (m.joinLobby "q" "A").1
  (m.joinLobby "p" "B").1

/-- The quote used in the concrete runs. -/
def quoteHi : Quote := { content := ['h', 'i'], author := "q" }

/-- The result of starting a session `"S"` from lobby `"A"` of
`managerTwoLobbies`. -/
def startedAB : Manager × Option Session × Option GameError :=
  managerTwoLobbies.startSessionFromLobby "A" "S" quoteHi

/-- A player who typed the whole prompt "hi" correctly at time 1/2. -/
def racerHi : Player :=
  (newPlayer "a" "A" "" 0).updateProgress ['h', 'i'] ['h', 'i'] (1 / 2)

/-- A session with id `"X"` containing only the player `"p"`. -/
def sessionKeyedX : Session :=
  { newSession "X" ['h'] "q" 4 with
    players := [("p", newPlayer "p" "P" "X" 0)] }

/-- A manager whose session registry holds only `sessionKeyedX` under the
key `"X"`; no session contains a player with id `"X"`. -/
def managerKeyedX : Manager :=
  { newManager with sessions := [("X", sessionKeyedX)] }

/-- A player who typed `"a"` against the prompt `"a"` at time 1, so its
`correctChars` and `totalChars` are both 1. -/
def racerA : Player := (newPlayer "a" "A" "" 0).updateProgress ['a'] ['a'] 1

/-- A lobby holding the two fresh players `p` and `q`. -/
def lobbyPQ : Lobby :=
  { id := "A"
    players := [("p", newPlayer "p" "P" "A" 0), ("q", newPlayer "q" "Q" "A" 0)]
    maxPlayers := 4
    createdAt := 0 }

/-- A manager whose only registry entry is the lobby `lobbyPQ`. -/
def managerLobbyPQ : Manager :=
  { newManager with
    players :=
      [("p", newPlayer "p" "P" "A" 0), ("q", newPlayer "q" "Q" "A" 0)]
    lobbies := [("A", lobbyPQ)] }

/-- A session holding the finished player and one unfinished player, with
prompt `"hi"`, not yet finished. -/
def sessionAlmostDone : Session :=
  { newSession "S" ['h', 'i'] "q" 4 with
    players := [("a", racerHi.finish 1), ("b", activeRacer)] }

/-- A session whose only roster member already finished, while the session
itself is not yet marked finished. -/
def sessionAllDone : Session :=
  { newSession "S" ['h', 'i'] "q" 4 with players := [("a", finishedRacer)] }

/-- A capacity-1 lobby that is already full. -/
def fullLobby : Lobby :=
  { id := "F"
    players := [("p", newPlayer "p" "P" "F" 0)]
    maxPlayers := 1
    createdAt := 0 }

/-! ### Association-list lemmas -/

theorem lookupA_insertA_self {α : Type} (l : List (String × α)) (k : String)
    (v : α) : lookupA (insertA l k v) k = some v := by
  induction l with
  | nil => simp [insertA, lookupA]
  | cons kv t ih =>
    by_cases h : kv.1 = k
    · simp [insertA, h, lookupA]
    · simp [insertA, h, lookupA, ih]

theorem lookupA_insertA_ne {α : Type} (l : List (String × α)) (k k' : String)
    (v : α) (h : k' ≠ k) : lookupA (insertA l k v) k' = lookupA l k' := by
  induction l with
  | nil => simp [insertA, lookupA, Ne.symm h]
  | cons hd t ih =>
    obtain ⟨a, b⟩ := hd
    by_cases hk : a = k
    · subst hk
      simp [insertA, lookupA, Ne.symm h]
    · by_cases hk' : a = k'
      · simp [insertA, hk, lookupA, hk', h]
      · simp [insertA, hk, lookupA, hk', ih]

theorem lookupA_mem {α : Type} {l : List (String × α)} {k : String} {v : α}
    (h : lookupA l k = some v) : (k, v) ∈ l := by
  induction l with
  | nil => simp [lookupA] at h
  | cons hd t ih =>
    obtain ⟨a, b⟩ := hd
    by_cases hk : a = k
    · simp only [lookupA, hk, if_pos] at h
      subst hk
      obtain rfl : b = v := Option.some.inj h
      exact List.mem_cons_self _ _
    · simp only [lookupA, hk, if_neg, not_false_iff] at h
      exact List.mem_cons_of_mem _ (ih h)

theorem mem_insertA {α : Type} {l : List (String × α)} {k : String} {v : α}
    {kv : String × α} (h : kv ∈ insertA l k v) : kv = (k, v) ∨ kv ∈ l := by
  induction l with
  | nil => simpa [insertA] using h
  | cons hd t ih =>
    obtain ⟨a, b⟩ := hd
    by_cases hk : a = k
    · simp only [insertA, hk, if_pos] at h
      rcases List.mem_cons.mp h with h | h
      · exact Or.inl h
      · exact Or.inr (List.mem_cons_of_mem _ h)
    · simp only [insertA, hk, if_neg, not_false_iff] at h
      rcases List.mem_cons.mp h with h | h
      · exact Or.inr (List.mem_cons.mpr (Or.inl h))
      · rcases ih h with h | h
        · exact Or.inl h
        · exact Or.inr (List.mem_cons_of_mem _ h)

theorem keysA_insertA_of_lookup_none {α : Type} (l : List (String × α))
    (k : String) (v : α) (h : lookupA l k = none) :
    keysA (insertA l k v) = keysA l ++ [k] := by
  induction l with
  | nil => simp [insertA, keysA]
  | cons hd t ih =>
    obtain ⟨a, b⟩ := hd
    by_cases hk : a = k
    · simp [lookupA, hk] at h
    · simp only [lookupA, hk, if_neg, not_false_iff] at h
      simp only [insertA, hk, if_neg, not_false_iff, keysA, List.map_cons,
        List.cons_append, List.cons.injEq, true_and]
      simpa [keysA] using ih h

theorem sizeA_insertA_of_lookup_none {α : Type} (l : List (String × α))
    (k : String) (v : α) (h : lookupA l k = none) :
    sizeA (insertA l k v) = sizeA l + 1 := by
  induction l with
  | nil => simp [insertA, sizeA]
  | cons hd t ih =>
    obtain ⟨a, b⟩ := hd
    by_cases hk : a = k
    · simp [lookupA, hk] at h
    · simp only [lookupA, hk, if_neg, not_false_iff] at h
      simp only [insertA, hk, if_neg, not_false_iff, sizeA, List.length_cons]
      simpa [sizeA] using ih h

theorem sizeA_insertA_of_lookup_some {α : Type} (l : List (String × α))
    (k : String) (v v' : α) (h : lookupA l k = some v') :
    sizeA (insertA l k v) = sizeA l := by
  induction l with
  | nil => simp [lookupA] at h
  | cons hd t ih =>
    obtain ⟨a, b⟩ := hd
    by_cases hk : a = k
    · simp [insertA, hk, sizeA]
    · simp only [lookupA, hk, if_neg, not_false_iff] at h
      simp only [insertA, hk, if_neg, not_false_iff, sizeA, List.length_cons]
      simpa [sizeA] using ih h

theorem sizeA_insertA_le {α : Type} (l : List (String × α)) (k : String)
    (v : α) : sizeA (insertA l k v) ≤ sizeA l + 1 := by
  induction l with
  | nil => simp [insertA, sizeA]
  | cons hd t ih =>
    obtain ⟨a, b⟩ := hd
    by_cases hk : a = k
    · simp [insertA, hk, sizeA]
    · simp only [insertA, hk, if_neg, not_false_iff]
      simpa [sizeA] using ih

theorem sizeA_eraseA_le {α : Type} (l : List (String × α)) (k : String) :
    sizeA (eraseA l k) ≤ sizeA l := by
  simpa [eraseA, sizeA] using List.length_filter_le _ l

theorem lookupA_eraseA_self {α : Type} (l : List (String × α)) (k : String) :
    lookupA (eraseA l k) k = none := by
  induction l with
  | nil => simp [eraseA, lookupA]
  | cons hd t ih =>
    obtain ⟨a, b⟩ := hd
    by_cases hk : a = k
    · simpa [eraseA, hk] using ih
    · simpa [eraseA, lookupA, hk] using ih

theorem lookupA_eq_none_of_not_mem {α : Type} {l : List (String × α)}
    {k : String} (h : k ∉ keysA l) : lookupA l k = none := by
  induction l with
  | nil => simp [lookupA]
  | cons hd t ih =>
    obtain ⟨a, b⟩ := hd
    simp only [keysA, List.map_cons, List.mem_cons, not_or] at h
    have hk : ¬a = k := fun hh => h.1 hh.symm
    simp only [lookupA, if_neg hk]
    exact ih (by simpa [keysA] using h.2)

theorem mem_insertA_nodup {α : Type} {l : List (String × α)} {k : String}
    {v : α} {kv : String × α} (hnd : (keysA l).Nodup)
    (h : kv ∈ insertA l k v) : kv = (k, v) ∨ (kv ∈ l ∧ kv.1 ≠ k) := by
  induction l with
  | nil => simp_all [insertA]
  | cons hd t ih =>
    obtain ⟨a, b⟩ := hd
    simp only [keysA, List.map_cons, List.nodup_cons] at hnd
    have hnd2 : (keysA t).Nodup := hnd.2
    by_cases hk : a = k
    · subst hk
      simp only [insertA, if_pos] at h
      rcases List.mem_cons.mp h with h | h
      · exact Or.inl h
      · refine Or.inr ⟨List.mem_cons_of_mem _ h, fun hkv => ?_⟩
        exact hnd.1 (hkv ▸ List.mem_map_of_mem Prod.fst h)
    · simp only [insertA, hk, if_neg, not_false_iff] at h
      rcases List.mem_cons.mp h with h | h
      · refine Or.inr ⟨List.mem_cons.mpr (Or.inl h), ?_⟩
        rw [h]
        exact hk
      · rcases ih hnd2 h with h' | h'
        · exact Or.inl h'
        · exact Or.inr ⟨List.mem_cons_of_mem _ h'.1, h'.2⟩

/-! ### Frame lemmas for the player and session operations -/

theorem Player.calculateAccuracy_frame (p : Player) (prompt : List Char) :
    (p.calculateAccuracy prompt).endTime = p.endTime ∧
    (p.calculateAccuracy prompt).isFinished = p.isFinished ∧
    (p.calculateAccuracy prompt).startTime = p.startTime ∧
    (p.calculateAccuracy prompt).currentPos = p.currentPos ∧
    (p.calculateAccuracy prompt).typedInput = p.typedInput ∧
    (p.calculateAccuracy prompt).wpm = p.wpm := by
  unfold Player.calculateAccuracy
  split <;> simp

theorem Player.calculateWPM_frame (p : Player) (now : ℚ) :
    (p.calculateWPM now).endTime = p.endTime ∧
    (p.calculateWPM now).isFinished = p.isFinished ∧
    (p.calculateWPM now).startTime = p.startTime ∧
    (p.calculateWPM now).currentPos = p.currentPos ∧
    (p.calculateWPM now).typedInput = p.typedInput ∧
    (p.calculateWPM now).correctChars = p.correctChars ∧
    (p.calculateWPM now).totalChars = p.totalChars ∧
    (p.calculateWPM now).accuracy = p.accuracy := by
  unfold Player.calculateWPM
  by_cases h : p.isFinished = true <;>
    by_cases h2 : (0 : ℚ) < p.endTime - p.startTime <;>
    by_cases h3 : (0 : ℚ) < now - p.startTime <;>
    simp [h, h2, h3]

theorem Player.updateProgress_frame (p : Player) (t prompt : List Char)
    (now : ℚ) :
    (p.updateProgress t prompt now).endTime = p.endTime ∧
    (p.updateProgress t prompt now).isFinished = p.isFinished ∧
    (p.updateProgress t prompt now).startTime = p.startTime ∧
    (p.updateProgress t prompt now).currentPos = t.length ∧
    (p.updateProgress t prompt now).typedInput = t := by
  unfold Player.updateProgress
  refine ⟨?_, ?_, ?_, ?_, ?_⟩ <;>
    simp [Player.calculateWPM_frame, (Player.calculateAccuracy_frame _ _).1,
      (Player.calculateAccuracy_frame _ _).2.1,
      (Player.calculateAccuracy_frame _ _).2.2.1,
      (Player.calculateAccuracy_frame _ _).2.2.2.1,
      (Player.calculateAccuracy_frame _ _).2.2.2.2.1,
      (Player.calculateWPM_frame _ _).1,
      (Player.calculateWPM_frame _ _).2.1,
      (Player.calculateWPM_frame _ _).2.2.1,
      (Player.calculateWPM_frame _ _).2.2.2.1,
      (Player.calculateWPM_frame _ _).2.2.2.2.1]

theorem Session.checkCompletion_frame (s : Session) (now : ℚ) :
    (s.checkCompletion now).players = s.players ∧
    (s.checkCompletion now).isActive = s.isActive ∧
    (s.checkCompletion now).countdown = s.countdown ∧
    (s.checkCompletion now).maxPlayers = s.maxPlayers ∧
    (s.checkCompletion now).prompt = s.prompt ∧
    (s.checkCompletion now).id = s.id := by
  unfold Session.checkCompletion
  split
  · simp
  · split <;> simp

theorem Session.addPlayer_frame (s : Session) (p : Player) :
    ((s.addPlayer p).1).isActive = s.isActive ∧
    ((s.addPlayer p).1).countdown = s.countdown ∧
    ((s.addPlayer p).1).maxPlayers = s.maxPlayers ∧
    ((s.addPlayer p).1).prompt = s.prompt ∧
    ((s.addPlayer p).1).id = s.id ∧
    ((s.addPlayer p).1).isFinished = s.isFinished ∧
    ((s.addPlayer p).1).startTime = s.startTime ∧
    ((s.addPlayer p).1).endTime = s.endTime := by
  unfold Session.addPlayer
  split
  · simp
  · split <;> simp

theorem countCorrect_le (t prompt : List Char) :
    countCorrect t prompt ≤ min t.length prompt.length := by
  simpa [countCorrect, List.length_zip] using
    List.countP_le_length (fun ab => decide (ab.1 = ab.2)) (l := t.zip prompt)

theorem Player.calculateAccuracy_empty_prompt (q : Player) :
    q.calculateAccuracy [] = { q with accuracy := 0 } := by
  unfold Player.calculateAccuracy
  simp

theorem Player.calculateAccuracy_spec (q : Player) (prompt : List Char)
    (h : prompt ≠ []) :
    (q.calculateAccuracy prompt).correctChars =
      countCorrect q.typedInput prompt ∧
    (q.calculateAccuracy prompt).totalChars =
      min q.typedInput.length prompt.length ∧
    (q.calculateAccuracy prompt).accuracy =
      (if 0 < min q.typedInput.length prompt.length then
        (countCorrect q.typedInput prompt : ℚ) /
          (min q.typedInput.length prompt.length : ℚ) * 100
      else 0) := by
  unfold Player.calculateAccuracy
  rw [if_neg (by simpa using h)]
  simp

theorem Player.updateProgress_stats (p : Player) (t prompt : List Char)
    (now : ℚ) (h : prompt ≠ []) :
    (p.updateProgress t prompt now).correctChars = countCorrect t prompt ∧
    (p.updateProgress t prompt now).totalChars =
      min t.length prompt.length ∧
    (p.updateProgress t prompt now).accuracy =
      (if 0 < min t.length prompt.length then
        (countCorrect t prompt : ℚ) / (min t.length prompt.length : ℚ) * 100
      else 0) := by
  have hacc := Player.calculateAccuracy_spec
    { p with typedInput := t, currentPos := t.length, lastUpdate := now }
    prompt h
  dsimp only at hacc
  simp only [Player.updateProgress]
  exact ⟨by rw [(Player.calculateWPM_frame _ _).2.2.2.2.2.1]; exact hacc.1,
    by rw [(Player.calculateWPM_frame _ _).2.2.2.2.2.2.1]; exact hacc.2.1,
    by rw [(Player.calculateWPM_frame _ _).2.2.2.2.2.2.2]; exact hacc.2.2⟩

theorem Player.updateProgress_empty_prompt (p : Player) (t : List Char)
    (now : ℚ) :
    (p.updateProgress t [] now).accuracy = 0 ∧
    (p.updateProgress t [] now).correctChars = p.correctChars ∧
    (p.updateProgress t [] now).totalChars = p.totalChars := by
  simp only [Player.updateProgress, Player.calculateAccuracy_empty_prompt]
  exact ⟨by rw [(Player.calculateWPM_frame _ _).2.2.2.2.2.2.2],
    by rw [(Player.calculateWPM_frame _ _).2.2.2.2.2.1],
    by rw [(Player.calculateWPM_frame _ _).2.2.2.2.2.2.1]⟩

theorem zip_append_left {α β : Type} (t extra : List α) (pr : List β)
    (h : pr.length ≤ t.length) : (t ++ extra).zip pr = t.zip pr := by
  induction t generalizing pr with
  | nil =>
    obtain rfl : pr = [] := List.length_eq_zero.mp (Nat.le_zero.mp h)
    simp
  | cons a t ih =>
    cases pr with
    | nil => simp
    | cons b pr =>
      simp only [List.cons_append, List.zip_cons_cons, List.cons.injEq,
        true_and]
      exact ih pr (by simpa using h)

theorem Player.calculateWPM_wpm (q : Player) (now : ℚ) :
    (q.calculateWPM now).wpm =
      (if q.isFinished = true then
        (if 0 < q.endTime - q.startTime then
          (q.correctChars : ℚ) / 5 / (q.endTime - q.startTime)
        else q.wpm)
      else
        (if 0 < now - q.startTime then
          (q.correctChars : ℚ) / 5 / (now - q.startTime)
        else q.wpm)) := by
  unfold Player.calculateWPM
  by_cases h : q.isFinished = true <;>
    by_cases h2 : (0 : ℚ) < q.endTime - q.startTime <;>
    by_cases h3 : (0 : ℚ) < now - q.startTime <;>
    simp [h, h2, h3]

theorem Player.calculateAccuracy_formulas (q : Player) (prompt : List Char) :
    (q.calculateAccuracy prompt).correctChars =
      (if prompt.length = 0 then q.correctChars
      else countCorrect q.typedInput prompt) ∧
    (q.calculateAccuracy prompt).totalChars =
      (if prompt.length = 0 then q.totalChars
      else min q.typedInput.length prompt.length) ∧
    (q.calculateAccuracy prompt).accuracy =
      (if prompt.length = 0 then 0
      else if 0 < min q.typedInput.length prompt.length then
        (countCorrect q.typedInput prompt : ℚ) /
          (min q.typedInput.length prompt.length : ℚ) * 100
      else 0) := by
  unfold Player.calculateAccuracy
  by_cases h : prompt.length = 0 <;> simp [h]

theorem Player.updateProgress_formulas (p : Player) (t prompt : List Char)
    (now : ℚ) :
    (p.updateProgress t prompt now).correctChars =
      (if prompt.length = 0 then p.correctChars else countCorrect t prompt) ∧
    (p.updateProgress t prompt now).totalChars =
      (if prompt.length = 0 then p.totalChars
      else min t.length prompt.length) ∧
    (p.updateProgress t prompt now).accuracy =
      (if prompt.length = 0 then 0
      else if 0 < min t.length prompt.length then
        (countCorrect t prompt : ℚ) / (min t.length prompt.length : ℚ) * 100
      else 0) := by
  have hf := Player.calculateAccuracy_formulas
    { p with typedInput := t, currentPos := t.length, lastUpdate := now }
    prompt
  dsimp only at hf
  simp only [Player.updateProgress]
  exact ⟨by rw [(Player.calculateWPM_frame _ _).2.2.2.2.2.1]; exact hf.1,
    by rw [(Player.calculateWPM_frame _ _).2.2.2.2.2.2.1]; exact hf.2.1,
    by rw [(Player.calculateWPM_frame _ _).2.2.2.2.2.2.2]; exact hf.2.2⟩

theorem Player.updateProgress_wpm (p : Player) (t prompt : List Char)
    (now : ℚ) :
    (p.updateProgress t prompt now).wpm =
      (if p.isFinished = true then
        (if 0 < p.endTime - p.startTime then
          ((if prompt.length = 0 then p.correctChars
            else countCorrect t prompt) : ℚ) / 5 / (p.endTime - p.startTime)
        else p.wpm)
      else
        (if 0 < now - p.startTime then
          ((if prompt.length = 0 then p.correctChars
            else countCorrect t prompt) : ℚ) / 5 / (now - p.startTime)
        else p.wpm)) := by
  have hacc := Player.calculateAccuracy_frame
    { p with typedInput := t, currentPos := t.length, lastUpdate := now }
    prompt
  have hcc := (Player.calculateAccuracy_formulas
    { p with typedInput := t, currentPos := t.length, lastUpdate := now }
    prompt).1
  dsimp only at hacc hcc
  simp only [Player.updateProgress]
  rw [Player.calculateWPM_wpm, hacc.1, hacc.2.1, hacc.2.2.1,
    hacc.2.2.2.2.2, hcc]
  simp [apply_ite (fun n : Nat => (n : ℚ))]

theorem Player.finish_fields (p : Player) (now : ℚ) :
    (p.finish now).isFinished = true ∧ (p.finish now).endTime = now := by
  unfold Player.finish
  exact ⟨by rw [(Player.calculateWPM_frame _ _).2.1],
    by rw [(Player.calculateWPM_frame _ _).1]⟩

theorem Session.checkCompletion_sets_finished (s : Session) (now : ℚ)
    (h0 : s.isFinished = false)
    (hall : s.players.all (fun kv => kv.2.isFinished) = true) :
    (s.checkCompletion now).isFinished = true ∧
    (s.checkCompletion now).endTime = now := by
  unfold Session.checkCompletion
  simp [h0, hall]

/-- Common core of the completion behaviour of
`Session.UpdatePlayerProgress`: when the named player exists, every other
roster member is finished, and the named player either is already finished
or has typed the whole prompt, the update marks the session finished and
captures the end time — with `IsActive` and `Countdown` untouched (no
precondition on the session having been started). -/
theorem Session.updatePlayerProgress_some (s : Session) (pid : String)
    (t : List Char) (now : ℚ) (p : Player)
    (hp : lookupA s.players pid = some p) :
    s.updatePlayerProgress pid t now =
      Session.checkCompletion
        { s with players := insertA s.players pid (s.progressStep p t now) }
        now := by
  unfold Session.updatePlayerProgress Session.progressStep
  rw [hp]

theorem Session.progressStep_finished (s : Session) (p : Player)
    (t : List Char) (now : ℚ)
    (hfin : p.isFinished = true ∨ s.prompt.length ≤ t.length) :
    (s.progressStep p t now).isFinished = true := by
  have hframe := Player.updateProgress_frame p t s.prompt now
  unfold Session.progressStep
  by_cases hf : (p.updateProgress t s.prompt now).isFinished = true
  · simp [hf]
  · have hf2 : p.isFinished = false := by
      rw [← hframe.2.1]
      simpa using hf
    have hcomp : s.prompt.length ≤ t.length := by
      rcases hfin with hfin | hfin
      · rw [hfin] at hf2
        exact absurd hf2 (by simp)
      · exact hfin
    have hic : (p.updateProgress t s.prompt now).isComplete
        s.prompt.length = true := by
      simp [Player.isComplete, hframe.2.2.2.1, hcomp]
    simp only [hic, Bool.true_and, hframe.2.1, hf2, Bool.not_false,
      if_true]
    exact (Player.finish_fields _ now).1

theorem Session.update_all_finished (s : Session) (pid : String)
    (t : List Char) (now : ℚ) (p : Player)
    (hnd : (keysA s.players).Nodup)
    (hp : lookupA s.players pid = some p)
    (hnf : s.isFinished = false)
    (hall : ∀ kv ∈ s.players, kv.1 ≠ pid → kv.2.isFinished = true)
    (hfin : p.isFinished = true ∨ s.prompt.length ≤ t.length) :
    (s.updatePlayerProgress pid t now).isFinished = true ∧
    (s.updatePlayerProgress pid t now).endTime = now ∧
    (s.updatePlayerProgress pid t now).isActive = s.isActive ∧
    (s.updatePlayerProgress pid t now).countdown = s.countdown := by
  rw [Session.updatePlayerProgress_some s pid t now p hp]
  have hall2 : (insertA s.players pid (s.progressStep p t now)).all
      (fun kv => kv.2.isFinished) = true := by
    rw [List.all_eq_true]
    intro kv hkv
    rcases mem_insertA_nodup hnd hkv with rfl | ⟨hkv2, hne⟩
    · simpa using Session.progressStep_finished s p t now hfin
    · simpa using hall kv hkv2 hne
  have hcheck := Session.checkCompletion_sets_finished
    { s with players := insertA s.players pid (s.progressStep p t now) }
    now (by simpa using hnf) (by simpa using hall2)
  have hfr := Session.checkCompletion_frame
    { s with players := insertA s.players pid (s.progressStep p t now) }
    now
  exact ⟨hcheck.1, hcheck.2, hfr.2.1, hfr.2.2.1⟩

theorem Session.updatePlayerProgress_size (s : Session) (pid : String)
    (t : List Char) (now : ℚ) :
    sizeA (s.updatePlayerProgress pid t now).players = sizeA s.players ∧
    (s.updatePlayerProgress pid t now).maxPlayers = s.maxPlayers := by
  cases hl : lookupA s.players pid with
  | none =>
    unfold Session.updatePlayerProgress
    rw [hl]
    exact ⟨rfl, rfl⟩
  | some p =>
    rw [Session.updatePlayerProgress_some s pid t now p hl]
    constructor
    · rw [(Session.checkCompletion_frame _ _).1]
      exact sizeA_insertA_of_lookup_some s.players pid _ p hl
    · rw [(Session.checkCompletion_frame _ _).2.2.2.1]

theorem capInv_addPlayer (m : Manager) (pid name : String) (now : ℚ)
    (h : CapInv m) : CapInv (m.addPlayer pid name now).1 := by
  unfold Manager.addPlayer
  cases hl : lookupA m.players pid with
  | none => exact h
  | some p => exact h

theorem capInv_removePlayer (m : Manager) (pid : String) (h : CapInv m) :
    CapInv (m.removePlayer pid) := by
  constructor
  · intro kv hkv
    have hkv2 : kv ∈ m.lobbies.map
        (fun kv => (kv.1, kv.2.removePlayer pid)) :=
      List.mem_of_mem_filter hkv
    rcases List.mem_map.mp hkv2 with ⟨kv0, hkv0, rfl⟩
    calc (sizeA (kv0.2.removePlayer pid).players : Int)
        ≤ (sizeA kv0.2.players : Int) := by
          exact_mod_cast sizeA_eraseA_le kv0.2.players pid
      _ ≤ max kv0.2.maxPlayers 0 := h.1 kv0 hkv0
  · intro kv hkv
    have hkv2 : kv ∈ m.sessions.map
        (fun kv => (kv.1, kv.2.removePlayer pid)) :=
      List.mem_of_mem_filter hkv
    rcases List.mem_map.mp hkv2 with ⟨kv0, hkv0, rfl⟩
    calc (sizeA (Session.removePlayer kv0.2 pid).players : Int)
        ≤ (sizeA kv0.2.players : Int) := by
          exact_mod_cast sizeA_eraseA_le kv0.2.players pid
      _ ≤ max kv0.2.maxPlayers 0 := h.2 kv0 hkv0

theorem capInv_createLobby (m : Manager) (cap : Int) (newId : String)
    (now : ℚ) (h : CapInv m) : CapInv (m.createLobby cap newId now).1 := by
  constructor
  · intro kv hkv
    have hkv2 : kv ∈ insertA m.lobbies newId
        { id := newId, players := [], maxPlayers := cap, createdAt := now } :=
      hkv
    rcases mem_insertA hkv2 with rfl | hold
    · simp [sizeA]
    · exact h.1 kv hold
  · intro kv hkv
    exact h.2 kv hkv

theorem capInv_joinLobby (m : Manager) (pid lid : String) (h : CapInv m) :
    CapInv (m.joinLobby pid lid).1 := by
  unfold Manager.joinLobby
  cases hp : lookupA m.players pid with
  | none => exact h
  | some player =>
    cases hl : lookupA m.lobbies lid with
    | none => exact h
    | some lobby =>
      dsimp only
      split
      · exact h
      · rename_i hfull
        constructor
        · intro kv hkv
          have hkv2 : kv ∈ insertA m.lobbies lid { lobby with players := insertA lobby.players pid { player with sessionID := lid } } := hkv
          rcases mem_insertA hkv2 with rfl | hold
          · have h1 := sizeA_insertA_le lobby.players pid
              { player with sessionID := lid }
            have hlt : (sizeA lobby.players : Int) < lobby.maxPlayers :=
              not_le.mp hfull
            dsimp only
            omega
          · exact h.1 kv hold
        · intro kv hkv
          exact h.2 kv hkv

theorem capInv_leaveLobby (m : Manager) (pid lid : String) (h : CapInv m) :
    CapInv (m.leaveLobby pid lid) := by
  unfold Manager.leaveLobby
  cases hl : lookupA m.lobbies lid with
  | none => exact h
  | some lobby =>
    dsimp only
    split
    · constructor
      · intro kv hkv
        have hkv2 : kv ∈ eraseA m.lobbies lid := hkv
        exact h.1 kv (List.mem_of_mem_filter hkv2)
      · intro kv hkv
        exact h.2 kv hkv
    · constructor
      · intro kv hkv
        have hkv2 : kv ∈ insertA m.lobbies lid (lobby.removePlayer pid) :=
          hkv
        rcases mem_insertA hkv2 with rfl | hold
        · calc (sizeA (lobby.removePlayer pid).players : Int)
              ≤ (sizeA lobby.players : Int) := by
                exact_mod_cast sizeA_eraseA_le lobby.players pid
            _ ≤ max lobby.maxPlayers 0 := h.1 (lid, lobby) (lookupA_mem hl)
        · exact h.1 kv hold
      · intro kv hkv
        exact h.2 kv hkv

theorem foldAddPlayer_cap (sid : String) (ps : List (String × Player)) :
    ∀ (s : Session), (sizeA s.players : Int) ≤ max s.maxPlayers 0 →
    (sizeA ((ps.foldl (fun acc kv =>
        (acc.addPlayer { kv.2 with sessionID := sid }).1) s).players) :
          Int) ≤
      max ((ps.foldl (fun acc kv =>
        (acc.addPlayer { kv.2 with sessionID := sid }).1) s).maxPlayers) 0 ∧
    (ps.foldl (fun acc kv =>
        (acc.addPlayer { kv.2 with sessionID := sid }).1) s).maxPlayers =
      s.maxPlayers := by
  induction ps with
  | nil =>
    intro s h
    exact ⟨h, rfl⟩
  | cons kv rest ih =>
    intro s h
    simp only [List.foldl_cons]
    have hstep : (sizeA ((s.addPlayer
          { kv.2 with sessionID := sid }).1).players : Int) ≤
        max ((s.addPlayer { kv.2 with sessionID := sid }).1).maxPlayers 0 ∧
        ((s.addPlayer { kv.2 with sessionID := sid }).1).maxPlayers =
          s.maxPlayers := by
      unfold Session.addPlayer
      split
      · exact ⟨h, rfl⟩
      · split
        · exact ⟨h, rfl⟩
        · rename_i hfull _
          refine ⟨?_, rfl⟩
          have h1 := sizeA_insertA_le s.players
            ({ kv.2 with sessionID := sid }).id { kv.2 with sessionID := sid }
          have hlt : (sizeA s.players : Int) < s.maxPlayers := not_le.mp hfull
          dsimp only
          dsimp only at h1
          omega
    obtain ⟨h1, h2⟩ := hstep
    have hres := ih ((s.addPlayer { kv.2 with sessionID := sid }).1) h1
    exact ⟨hres.1, hres.2.trans h2⟩

theorem capInv_startSession (m : Manager) (lid sid : String) (q : Quote)
    (h : CapInv m) : CapInv (m.startSessionFromLobby lid sid q).1 := by
  unfold Manager.startSessionFromLobby
  cases hl : lookupA m.lobbies lid with
  | none => exact h
  | some lobby =>
    dsimp only
    split
    · exact h
    · constructor
      · intro kv hkv
        have hkv2 : kv ∈ eraseA m.lobbies lid := hkv
        exact h.1 kv (List.mem_of_mem_filter hkv2)
      · intro kv hkv
        have hkv2 : kv ∈ insertA m.sessions sid
            (lobby.players.foldl (fun s kv =>
              (s.addPlayer { kv.2 with sessionID := sid }).1)
              (newSession sid q.content q.author lobby.maxPlayers)) := hkv
        rcases mem_insertA hkv2 with rfl | hold
        · exact (foldAddPlayer_cap sid lobby.players
            (newSession sid q.content q.author lobby.maxPlayers)
            (by simp [newSession, sizeA])).1
        · exact h.2 kv hold

theorem capInv_updateProgress (m : Manager) (pid : String) (t : List Char)
    (now : ℚ) (h : CapInv m) :
    CapInv (m.updatePlayerProgress pid t now).1 := by
  unfold Manager.updatePlayerProgress
  cases hs : lookupA m.sessions pid with
  | some s =>
    constructor
    · intro kv hkv
      exact h.1 kv hkv
    · intro kv hkv
      have hkv2 : kv ∈ insertA m.sessions pid
          (s.updatePlayerProgress pid t now) := hkv
      rcases mem_insertA hkv2 with rfl | hold
      · have hb := h.2 (pid, s) (lookupA_mem hs)
        have hsz := Session.updatePlayerProgress_size s pid t now
        rw [hsz.1, hsz.2]
        exact hb
      · exact h.2 kv hold
  | none =>
    cases hf : m.sessions.find?
        (fun kv => (lookupA kv.2.players pid).isSome) with
    | some kv0 =>
      constructor
      · intro kv hkv
        exact h.1 kv hkv
      · intro kv hkv
        have hkv2 : kv ∈ insertA m.sessions kv0.1
            (kv0.2.updatePlayerProgress pid t now) := hkv
        rcases mem_insertA hkv2 with rfl | hold
        · have hb := h.2 kv0 (List.mem_of_find?_eq_some hf)
          have hsz := Session.updatePlayerProgress_size kv0.2 pid t now
          rw [hsz.1, hsz.2]
          exact hb
        · exact h.2 kv hold
    | none => exact h

theorem capInv_reachable : ∀ m : Manager, Reachable m → CapInv m := by
  intro m hm
  induction hm with
  | new =>
    constructor
    · intro kv hkv
      simp [newManager] at hkv
    · intro kv hkv
      simp [newManager] at hkv
  | addPlayer pid name now _ ih => exact capInv_addPlayer _ pid name now ih
  | removePlayer pid _ ih => exact capInv_removePlayer _ pid ih
  | createLobby cap newId now _ ih =>
    exact capInv_createLobby _ cap newId now ih
  | joinLobby pid lid _ ih => exact capInv_joinLobby _ pid lid ih
  | leaveLobby pid lid _ ih => exact capInv_leaveLobby _ pid lid ih
  | startSessionFromLobby lid sid q _ ih =>
    exact capInv_startSession _ lid sid q ih
  | updatePlayerProgress pid t now _ ih =>
    exact capInv_updateProgress _ pid t now ih

/-! ### C1 -/

/-- C1: `GetLeaderboard()` is claimed to place all finished players before
all unfinished players (finished ones ascending by end time). Evaluating
the code on a roster with one finished and one unfinished player shows the
opposite: the swap under the "Finished players come first" comment moves
the finished player *behind* the unfinished one, so the returned order is
unfinished-first, contradicting the function's own comments and the claim. -/
theorem getLeaderboard_puts_unfinished_first :
    sessionFU.getLeaderboard = #[activeRacer, finishedRacer] ∧
    finishedRacer.isFinished = true ∧
    activeRacer.isFinished = false := by
  decide

/-! ### C5 -/

/-- C5 counterexample: the claim says `CreateLobby(capacity)` fails exactly
when `capacity < 2`, but `CreateLobby(0)` returns a `nil` error and
registers the lobby: the source never validates the capacity. -/
theorem createLobby_capacity_zero_succeeds :
    (newManager.createLobby 0 "L" 0).2.2 = none ∧
    lookupA (newManager.createLobby 0 "L" 0).1.lobbies "L" ≠ none := by
  decide

/-- C5 amended: `CreateLobby(capacity)` never fails: for every capacity
(including those below 2) it returns a `nil` error and registers an empty
lobby with exactly that capacity under the generated uuid; when the uuid is
fresh the registry grows by one (freshness comes from the uuid generator,
not from any check in the code). -/
theorem createLobby_always_succeeds (m : Manager) (cap : Int)
    (newId : String) (now : ℚ) :
    (m.createLobby cap newId now).2.2 = none ∧
    (m.createLobby cap newId now).2.1.maxPlayers = cap ∧
    (m.createLobby cap newId now).2.1.players = [] ∧
    (m.createLobby cap newId now).2.1.id = newId ∧
    lookupA (m.createLobby cap newId now).1.lobbies newId =
      some (m.createLobby cap newId now).2.1 ∧
    (lookupA m.lobbies newId = none →
      sizeA (m.createLobby cap newId now).1.lobbies = sizeA m.lobbies + 1) := by
  refine ⟨rfl, rfl, rfl, rfl, ?_, ?_⟩
  · exact lookupA_insertA_self m.lobbies newId _
  · intro h
    exact sizeA_insertA_of_lookup_none m.lobbies newId _ h

/-- C5 witness: the amended theorem applied to the empty manager at
capacity 4 with the fresh id `"L"`. -/
theorem createLobby_always_succeeds_witness :
    (newManager.createLobby 4 "L" 0).2.2 = none ∧
    sizeA (newManager.createLobby 4 "L" 0).1.lobbies =
      sizeA newManager.lobbies + 1 :=
  ⟨(createLobby_always_succeeds newManager 4 "L" 0).1,
   (createLobby_always_succeeds newManager 4 "L" 0).2.2.2.2.2 (by decide)⟩

/-! ### C3 -/

/-- C3 counterexample: `Finish()` is not idempotent. On the player who
typed the prompt "hi" and finished at time 1 (end time 1, WPM 2/5), a
second `Finish()` call at time 2 overwrites the end time with 2 and
recomputes the final WPM to 1/5 — both change, contradicting the claim. -/
theorem finish_twice_changes_endTime_and_wpm :
    (racerHi.finish 1).isFinished = true ∧
    ((racerHi.finish 1).finish 2).endTime ≠ (racerHi.finish 1).endTime ∧
    ((racerHi.finish 1).finish 2).wpm ≠ (racerHi.finish 1).wpm := by
  norm_num [racerHi, newPlayer, Player.updateProgress,
    Player.calculateAccuracy, Player.calculateWPM, Player.finish,
    countCorrect, List.countP, List.countP.go]

/-- C3 amended: `Player.Finish()` itself is not idempotent — a second
direct call re-captures the end time and recomputes the final WPM from it.
The idempotence holds one level up: `Session.UpdatePlayerProgress` guards
`Finish` with the finished flag, so a progress update on an
already-finished roster member stores exactly the progress-updated player,
whose end time and finished flag are unchanged (`Finish` is never
re-invoked; the accuracy/WPM statistics are still recomputed from the new
input, as `UpdateProgress` always does). -/
theorem session_update_never_refinishes (s : Session) (pid : String)
    (t : List Char) (now : ℚ) (p : Player)
    (hp : lookupA s.players pid = some p) (hf : p.isFinished = true) :
    lookupA (s.updatePlayerProgress pid t now).players pid =
      some (p.updateProgress t s.prompt now) ∧
    (p.updateProgress t s.prompt now).endTime = p.endTime ∧
    (p.updateProgress t s.prompt now).isFinished = true := by
  have hfr := Player.updateProgress_frame p t s.prompt now
  have hIsF : (p.updateProgress t s.prompt now).isFinished = true :=
    hfr.2.1.trans hf
  refine ⟨?_, hfr.1, hIsF⟩
  unfold Session.updatePlayerProgress
  rw [hp]
  simp only [hIsF, Bool.not_true, Bool.and_false, if_false,
    Bool.false_eq_true]
  rw [(Session.checkCompletion_frame _ _).1]
  exact lookupA_insertA_self s.players pid _

/-- C3 witness: the amended theorem applied to the almost-done session
whose roster member `"a"` already finished at time 1. -/
theorem session_update_never_refinishes_witness :
    lookupA (sessionAlmostDone.updatePlayerProgress "a" ['x'] 2).players "a" =
      some ((racerHi.finish 1).updateProgress ['x'] sessionAlmostDone.prompt 2) ∧
    ((racerHi.finish 1).updateProgress ['x'] sessionAlmostDone.prompt 2).endTime =
      (racerHi.finish 1).endTime ∧
    ((racerHi.finish 1).updateProgress ['x'] sessionAlmostDone.prompt 2).isFinished =
      true :=
  session_update_never_refinishes sessionAlmostDone "a" ['x'] 2
    (racerHi.finish 1) (by simp [sessionAlmostDone, lookupA])
    (by norm_num [racerHi, newPlayer, Player.updateProgress,
      Player.calculateAccuracy, Player.calculateWPM, Player.finish,
      countCorrect])

/-! ### C6 -/

/-- C6 counterexample: after `UpdateProgress("a", prompt := "")` on the
player whose earlier update set `correctChars = totalChars = 1`, the
early return for an empty prompt leaves the stale counters, so
`totalChars = 1 > 0 = min(len typed, len prompt)` and the claimed bound
fails (accuracy is still set to 0). -/
theorem updateProgress_empty_prompt_stale_counters :
    (racerA.updateProgress ['a'] [] 2).correctChars = 1 ∧
    (racerA.updateProgress ['a'] [] 2).totalChars = 1 ∧
    ¬((racerA.updateProgress ['a'] [] 2).totalChars ≤
        min (List.length ['a']) (List.length ([] : List Char))) ∧
    (racerA.updateProgress ['a'] [] 2).accuracy = 0 := by
  norm_num [racerA, newPlayer, Player.updateProgress,
    Player.calculateAccuracy, Player.calculateWPM, countCorrect]

/-- C6 amended: for every player, typed input and *nonempty* prompt,
`UpdateProgress` establishes
`correctChars ≤ comparedChars = min(len typed, len prompt)` and
`0 ≤ accuracy ≤ 100`; when the prompt is empty, `calculateAccuracy`
returns early: accuracy is set to 0 and `correctChars`/`comparedChars`
keep their previous values (so the min-bound can be violated by stale
counters). -/
theorem updateProgress_stats_bounds (p : Player) (t prompt : List Char)
    (now : ℚ) :
    (prompt ≠ [] →
      (p.updateProgress t prompt now).correctChars ≤
        (p.updateProgress t prompt now).totalChars ∧
      (p.updateProgress t prompt now).totalChars =
        min t.length prompt.length ∧
      0 ≤ (p.updateProgress t prompt now).accuracy ∧
      (p.updateProgress t prompt now).accuracy ≤ 100) ∧
    (prompt = [] →
      (p.updateProgress t prompt now).accuracy = 0 ∧
      (p.updateProgress t prompt now).correctChars = p.correctChars ∧
      (p.updateProgress t prompt now).totalChars = p.totalChars) := by
  constructor
  · intro h
    obtain ⟨hc, hT, hA⟩ := Player.updateProgress_stats p t prompt now h
    have hle : countCorrect t prompt ≤ min t.length prompt.length :=
      countCorrect_le t prompt
    refine ⟨by rw [hc, hT]; exact hle, hT, ?_, ?_⟩
    · rw [hA]
      by_cases hpos : 0 < min t.length prompt.length
      · rw [if_pos hpos]
        positivity
      · rw [if_neg hpos]
    · rw [hA]
      by_cases hpos : 0 < min t.length prompt.length
      · rw [if_pos hpos]
        have hTpos : (0 : ℚ) < (min t.length prompt.length : ℚ) := by
          exact_mod_cast hpos
        have hcast : (countCorrect t prompt : ℚ) ≤
            (min t.length prompt.length : ℚ) := by exact_mod_cast hle
        calc (countCorrect t prompt : ℚ) /
              (min t.length prompt.length : ℚ) * 100
            ≤ 1 * 100 := by
              have := (div_le_one hTpos).mpr hcast
              nlinarith
          _ = 100 := by norm_num
      · rw [if_neg hpos]
        norm_num
  · intro h
    subst h
    exact Player.updateProgress_empty_prompt p t now

/-- C6 witness: the amended theorem applied to a fresh player typing "hx"
against the prompt "hi". -/
theorem updateProgress_stats_bounds_witness :
    ((newPlayer "a" "A" "" 0).updateProgress ['h', 'x'] ['h', 'i'] 1).correctChars ≤
      ((newPlayer "a" "A" "" 0).updateProgress ['h', 'x'] ['h', 'i'] 1).totalChars ∧
    ((newPlayer "a" "A" "" 0).updateProgress ['h', 'x'] ['h', 'i'] 1).totalChars =
      min (List.length ['h', 'x']) (List.length ['h', 'i']) ∧
    0 ≤ ((newPlayer "a" "A" "" 0).updateProgress ['h', 'x'] ['h', 'i'] 1).accuracy ∧
    ((newPlayer "a" "A" "" 0).updateProgress ['h', 'x'] ['h', 'i'] 1).accuracy ≤ 100 :=
  (updateProgress_stats_bounds (newPlayer "a" "A" "" 0) ['h', 'x'] ['h', 'i'] 1).1
    (by decide)

/-! ### C4 -/

/-- C4 counterexample: the claim says `UpdatePlayerProgress(playerID, ...)`
returns `PlayerNotInSession` iff no session contains a player with that id.
But the code first reads the *session* registry at `playerID`
(`m.sessions[playerID]`): on a manager whose session registry has the key
`"X"` while no session contains a player `"X"`, the call returns a `nil`
error, contradicting the claim. -/
theorem updatePlayerProgress_keyed_session_no_error :
    (managerKeyedX.updatePlayerProgress "X" ['h'] 1).2 = none ∧
    managerKeyedX.sessions.all
      (fun kv => (lookupA kv.2.players "X").isNone) = true := by
  decide

/-- C4 amended: `Manager.UpdatePlayerProgress(playerID, typedInput)`
returns `PlayerNotInSession` iff `playerID` is neither a key of the
session registry nor contained as a player in any session. When `playerID`
is a session-registry key, the update is routed to that keyed session (a
no-op inside it if it holds no such player) and no error is returned;
otherwise, when some session contains the player, the update is routed to
the first such session and no error is returned. -/
theorem updatePlayerProgress_routing :
    (∀ (m : Manager) (pid : String) (t : List Char) (now : ℚ),
      (m.updatePlayerProgress pid t now).2 = some .playerNotInSession ↔
        (lookupA m.sessions pid = none ∧
          ∀ kv ∈ m.sessions, lookupA kv.2.players pid = none)) ∧
    (∀ (m : Manager) (pid : String) (t : List Char) (now : ℚ) (s : Session),
      lookupA m.sessions pid = some s →
      m.updatePlayerProgress pid t now =
        ({ m with sessions :=
            insertA m.sessions pid (s.updatePlayerProgress pid t now) },
          none)) ∧
    (∀ (m : Manager) (pid : String) (t : List Char) (now : ℚ)
        (kv : String × Session),
      lookupA m.sessions pid = none →
      m.sessions.find? (fun kv => (lookupA kv.2.players pid).isSome) =
        some kv →
      m.updatePlayerProgress pid t now =
        ({ m with sessions :=
            insertA m.sessions kv.1 (kv.2.updatePlayerProgress pid t now) },
          none)) := by
  refine ⟨?_, ?_, ?_⟩
  · intro m pid t now
    unfold Manager.updatePlayerProgress
    cases h : lookupA m.sessions pid with
    | some s => simp [h]
    | none =>
      cases h2 : m.sessions.find?
          (fun kv => (lookupA kv.2.players pid).isSome) with
      | some kv =>
        simp only [h, h2]
        constructor
        · intro hcontr
          simp at hcontr
        · rintro ⟨-, hall⟩
          have hmem := List.mem_of_find?_eq_some h2
          have hpred := List.find?_some h2
          rw [hall kv hmem] at hpred
          simp at hpred
      | none =>
        simp only [h, h2]
        refine ⟨fun _ => ⟨trivial, fun kv hkv => ?_⟩, fun _ => trivial⟩
        have := List.find?_eq_none.mp h2 kv hkv
        simpa [Option.isNone_iff_eq_none] using this
  · intro m pid t now s h
    unfold Manager.updatePlayerProgress
    rw [h]
  · intro m pid t now kv h h2
    unfold Manager.updatePlayerProgress
    rw [h, h2]

/-- C4 witness: the keyed-session routing branch applied to the concrete
manager whose session registry has the key `"X"`. -/
theorem updatePlayerProgress_routing_witness :
    managerKeyedX.updatePlayerProgress "X" ['h'] 1 =
      ({ managerKeyedX with
          sessions := insertA managerKeyedX.sessions "X"
            (sessionKeyedX.updatePlayerProgress "X" ['h'] 1) }, none) :=
  updatePlayerProgress_routing.2.1 managerKeyedX "X" ['h'] 1 sessionKeyedX
    (by decide)

/-! ### C7 -/

/-- C7: after an update, `IsComplete(promptLength)` holds exactly when the
typed input's length is at least `promptLength`; and typing extra
characters past the prompt changes none of `correctChars`,
`comparedChars`, `accuracy` or `WPM` (the comparison is clamped to the
prompt length), while still counting toward completion. -/
theorem isComplete_iff_and_overflow_ignored :
    (∀ (p : Player) (t prompt : List Char) (now : ℚ) (L : Nat),
      (p.updateProgress t prompt now).isComplete L = true ↔ L ≤ t.length) ∧
    (∀ (p : Player) (t extra prompt : List Char) (now : ℚ),
      prompt.length ≤ t.length →
      (p.updateProgress (t ++ extra) prompt now).correctChars =
        (p.updateProgress t prompt now).correctChars ∧
      (p.updateProgress (t ++ extra) prompt now).totalChars =
        (p.updateProgress t prompt now).totalChars ∧
      (p.updateProgress (t ++ extra) prompt now).accuracy =
        (p.updateProgress t prompt now).accuracy ∧
      (p.updateProgress (t ++ extra) prompt now).wpm =
        (p.updateProgress t prompt now).wpm ∧
      (p.updateProgress (t ++ extra) prompt now).isComplete prompt.length =
        true) := by
  have hcurr : ∀ (p : Player) (t prompt : List Char) (now : ℚ) (L : Nat),
      (p.updateProgress t prompt now).isComplete L = true ↔ L ≤ t.length := by
    intro p t prompt now L
    have hframe := (Player.updateProgress_frame p t prompt now).2.2.2.1
    simp [Player.isComplete, hframe, ge_iff_le]
  refine ⟨hcurr, ?_⟩
  intro p t extra prompt now h
  have hcnt : countCorrect (t ++ extra) prompt = countCorrect t prompt := by
    unfold countCorrect
    rw [zip_append_left t extra prompt h]
  have hmin1 : min (t ++ extra).length prompt.length = prompt.length := by
    simp only [List.length_append]
    exact Nat.min_eq_right (le_trans h (Nat.le_add_right _ _))
  have hmin2 : min t.length prompt.length = prompt.length :=
    Nat.min_eq_right h
  have hf1 := Player.updateProgress_formulas p (t ++ extra) prompt now
  have hf2 := Player.updateProgress_formulas p t prompt now
  refine ⟨?_, ?_, ?_, ?_, ?_⟩
  · rw [hf1.1, hf2.1, hcnt]
  · rw [hf1.2.1, hf2.2.1, hmin1, hmin2]
  · rw [hf1.2.2, hf2.2.2, hcnt]
    simp only [← Nat.cast_min]
    rw [hmin1, hmin2]
  · rw [Player.updateProgress_wpm, Player.updateProgress_wpm, hcnt]
  · exact (hcurr p (t ++ extra) prompt now prompt.length).mpr
      (by simpa using le_trans h (Nat.le_add_right _ extra.length))

/-- C7 witness: a fresh player typing "hi" plus an extra character against
the prompt "hi": the WPM agrees with the exact typing and completion
holds. -/
theorem isComplete_iff_and_overflow_ignored_witness :
    ((newPlayer "a" "A" "" 0).updateProgress (['h', 'i'] ++ ['z'])
        ['h', 'i'] 1).wpm =
      ((newPlayer "a" "A" "" 0).updateProgress ['h', 'i'] ['h', 'i'] 1).wpm ∧
    ((newPlayer "a" "A" "" 0).updateProgress (['h', 'i'] ++ ['z'])
        ['h', 'i'] 1).isComplete (List.length ['h', 'i']) = true :=
  ⟨(isComplete_iff_and_overflow_ignored.2 (newPlayer "a" "A" "" 0)
      ['h', 'i'] ['z'] ['h', 'i'] 1 (by decide)).2.2.2.1,
   (isComplete_iff_and_overflow_ignored.2 (newPlayer "a" "A" "" 0)
      ['h', 'i'] ['z'] ['h', 'i'] 1 (by decide)).2.2.2.2⟩

/-! ### C9 -/

/-- C9: `Session.UpdatePlayerProgress` applies the progress update, the
finish step and the all-finished completion check with no precondition on
the session having started: for any session (in particular one that is not
Active, or whose countdown is still positive) in which every other roster
member is already finished, an update that completes the prompt for the
named player transitions the session to Finished with the end time
captured — while `IsActive` and `Countdown` keep whatever values they had,
so the session can finish without ever having been Active with countdown
0. -/
theorem session_finishes_without_start (s : Session) (pid : String)
    (t : List Char) (now : ℚ) (p : Player)
    (hnd : (keysA s.players).Nodup)
    (hp : lookupA s.players pid = some p)
    (hnf : s.isFinished = false)
    (hall : ∀ kv ∈ s.players, kv.1 ≠ pid → kv.2.isFinished = true)
    (hcomp : s.prompt.length ≤ t.length) :
    (s.updatePlayerProgress pid t now).isFinished = true ∧
    (s.updatePlayerProgress pid t now).endTime = now ∧
    (s.updatePlayerProgress pid t now).isActive = s.isActive ∧
    (s.updatePlayerProgress pid t now).countdown = s.countdown :=
  Session.update_all_finished s pid t now p hnd hp hnf hall (Or.inr hcomp)

/-- C9 witness: the never-started session `sessionFU` (IsActive = false,
Countdown = 0) finishes when its unfinished member `"b"` types the whole
prompt. -/
theorem session_finishes_without_start_witness :
    (sessionFU.updatePlayerProgress "b" ['h', 'i'] 3).isFinished = true ∧
    (sessionFU.updatePlayerProgress "b" ['h', 'i'] 3).endTime = 3 ∧
    (sessionFU.updatePlayerProgress "b" ['h', 'i'] 3).isActive =
      sessionFU.isActive ∧
    (sessionFU.updatePlayerProgress "b" ['h', 'i'] 3).countdown =
      sessionFU.countdown :=
  session_finishes_without_start sessionFU "b" ['h', 'i'] 3 activeRacer
    (by decide) (by decide) (by decide) (by decide) (by decide)

/-! ### C10 -/

/-- C10: `Session.RemovePlayer` changes only the roster — every other
session field, in particular `IsFinished` and the end time, is unchanged —
so removing the last unfinished member leaves the session un-Finished even
though all remaining members are finished. `AddPlayer` and `Start` also
never change `IsFinished`; the Finished transition occurs only through a
subsequent `UpdatePlayerProgress` call, which does fire it on a roster
whose members are all finished. -/
theorem removePlayer_roster_only :
    (∀ (s : Session) (pid : String),
      (s.removePlayer pid).isFinished = s.isFinished ∧
      (s.removePlayer pid).endTime = s.endTime ∧
      (s.removePlayer pid).isActive = s.isActive ∧
      (s.removePlayer pid).countdown = s.countdown ∧
      (s.removePlayer pid).startTime = s.startTime ∧
      (s.removePlayer pid).prompt = s.prompt ∧
      (s.removePlayer pid).maxPlayers = s.maxPlayers ∧
      (s.removePlayer pid).id = s.id ∧
      (s.removePlayer pid).players = eraseA s.players pid) ∧
    (∀ (s : Session) (p : Player),
      ((s.addPlayer p).1).isFinished = s.isFinished) ∧
    (∀ (s : Session) (now : ℚ),
      ((s.start now).1).isFinished = s.isFinished) ∧
    (∀ (s : Session) (pid : String) (t : List Char) (now : ℚ) (p : Player),
      (keysA s.players).Nodup →
      lookupA s.players pid = some p →
      s.isFinished = false →
      (∀ kv ∈ s.players, kv.2.isFinished = true) →
      (s.updatePlayerProgress pid t now).isFinished = true) := by
  refine ⟨?_, ?_, ?_, ?_⟩
  · intro s pid
    exact ⟨rfl, rfl, rfl, rfl, rfl, rfl, rfl, rfl, rfl⟩
  · intro s p
    exact (Session.addPlayer_frame s p).2.2.2.2.2.1
  · intro s now
    unfold Session.start
    split
    · simp
    · split <;> simp
  · intro s pid t now p hnd hp hnf hall
    have hpfin : p.isFinished = true := hall (pid, p) (lookupA_mem hp)
    exact (Session.update_all_finished s pid t now p hnd hp hnf
      (fun kv hkv _ => hall kv hkv) (Or.inl hpfin)).1

/-- C10 witness: removing the unfinished member of `sessionFU` leaves it
un-Finished, and a later progress update on the all-finished session
`sessionAllDone` flips it to Finished. -/
theorem removePlayer_roster_only_witness :
    (sessionFU.removePlayer "b").isFinished = sessionFU.isFinished ∧
    (sessionAllDone.updatePlayerProgress "a" [] 5).isFinished = true :=
  ⟨(removePlayer_roster_only.1 sessionFU "b").1,
   removePlayer_roster_only.2.2.2 sessionAllDone "a" [] 5 finishedRacer
     (by decide) (by decide) (by decide) (by decide)⟩

/-! ### C2 -/

/-- The membership transfer loop of `StartSessionFromLobby`: folding the
guarded `Session.AddPlayer` over the lobby members. When the start session
is inactive, the member records carry their own key as id, the keys are
fresh and duplicate-free, and they all fit in the remaining capacity, the
resulting roster keys are exactly the previous ones followed by the
members', and every session field except the roster is unchanged. -/
theorem foldAddPlayer_spec (sid : String) (ps : List (String × Player)) :
    ∀ (s : Session), s.isActive = false →
    (∀ kv ∈ ps, kv.2.id = kv.1) →
    (keysA s.players ++ ps.map Prod.fst).Nodup →
    (sizeA s.players : Int) + ps.length ≤ s.maxPlayers →
    keysA ((ps.foldl (fun acc kv =>
        (acc.addPlayer { kv.2 with sessionID := sid }).1) s).players) =
      keysA s.players ++ ps.map Prod.fst ∧
    (ps.foldl (fun acc kv =>
        (acc.addPlayer { kv.2 with sessionID := sid }).1) s).isActive =
      false ∧
    (ps.foldl (fun acc kv =>
        (acc.addPlayer { kv.2 with sessionID := sid }).1) s).maxPlayers =
      s.maxPlayers ∧
    (ps.foldl (fun acc kv =>
        (acc.addPlayer { kv.2 with sessionID := sid }).1) s).countdown =
      s.countdown ∧
    (ps.foldl (fun acc kv =>
        (acc.addPlayer { kv.2 with sessionID := sid }).1) s).prompt =
      s.prompt ∧
    (ps.foldl (fun acc kv =>
        (acc.addPlayer { kv.2 with sessionID := sid }).1) s).id = s.id := by
  induction ps with
  | nil =>
    intro s hact _ _ _
    refine ⟨by simp, hact, rfl, rfl, rfl, rfl⟩
  | cons kv rest ih =>
    intro s hact hid hnd hsz
    simp only [List.map_cons] at hnd
    simp only [List.length_cons] at hsz
    have hlt : (sizeA s.players : Int) < s.maxPlayers := by
      push_cast at hsz ⊢
      omega
    have hkey : kv.2.id = kv.1 := hid kv (List.mem_cons_self _ _)
    have hstep : (s.addPlayer { kv.2 with sessionID := sid }).1 =
        { s with players := insertA s.players kv.1 { kv.2 with sessionID := sid } } := by
      unfold Session.addPlayer
      rw [if_neg (not_le.mpr hlt), if_neg (by simp [hact])]
      dsimp only
      rw [hkey]
    have hfresh : kv.1 ∉ keysA s.players := by
      rcases List.nodup_append.mp hnd with ⟨-, -, hdisj⟩
      intro hmem
      exact hdisj hmem (List.mem_cons_self _ _)
    have hlook : lookupA s.players kv.1 = none :=
      lookupA_eq_none_of_not_mem hfresh
    have hkeys : keysA (insertA s.players kv.1 { kv.2 with sessionID := sid }) =
        keysA s.players ++ [kv.1] :=
      keysA_insertA_of_lookup_none _ _ _ hlook
    have hsize : sizeA (insertA s.players kv.1 { kv.2 with sessionID := sid }) =
        sizeA s.players + 1 :=
      sizeA_insertA_of_lookup_none _ _ _ hlook
    have hres := ih { s with players := insertA s.players kv.1 { kv.2 with sessionID := sid } }
      hact (fun kv2 h2 => hid kv2 (List.mem_cons_of_mem _ h2))
      (by
        show (keysA (insertA s.players kv.1 { kv.2 with sessionID := sid }) ++
          List.map Prod.fst rest).Nodup
        rw [hkeys, List.append_assoc, List.singleton_append]
        exact hnd)
      (by
        show (sizeA (insertA s.players kv.1 { kv.2 with sessionID := sid }) : Int) +
          (rest.length : Int) ≤ s.maxPlayers
        rw [hsize]
        push_cast at hsz ⊢
        omega)
    simp only [List.foldl_cons, hstep]
    refine ⟨?_, hres.2.1, hres.2.2.1, hres.2.2.2.1, hres.2.2.2.2.1,
      hres.2.2.2.2.2⟩
    rw [hres.1]
    show keysA (insertA s.players kv.1 { kv.2 with sessionID := sid }) ++
      List.map Prod.fst rest = _
    rw [hkeys, List.append_assoc, List.singleton_append]
    simp

/-- C2 counterexample: starting session `"S"` from lobby `"A"` of the
manager in which player `"p"` sits in lobbies `"A"` and `"B"` succeeds,
but (i) the created session is *not* active and its countdown is 0 — the
code never calls `Session.Start`, so the Pending→Counting-down transition
is not begun — and (ii) player `"p"` is simultaneously in lobby `"B"` and
in session `"S"`, so the claimed "no player is in both a lobby and a
session" fails. -/
theorem startSession_not_started_and_dual_membership :
    startedAB.2.2 = none ∧
    startedAB.2.1.map Session.isActive = some false ∧
    startedAB.2.1.map Session.countdown = some 0 ∧
    (lookupA startedAB.1.lobbies "B").map
      (fun l => (lookupA l.players "p").isSome) = some true ∧
    (lookupA startedAB.1.sessions "S").map
      (fun s => (lookupA s.players "p").isSome) = some true := by
  decide

/-- C2 amended: `StartSessionFromLobby(lobbyID)` fails with `LobbyNotFound`
when the lobby is missing and with `NotEnoughPlayers` when it has fewer
than 2 members. On success it creates a Session with the lobby's capacity
and exactly the lobby's membership, registers it under the generated id,
and removes that lobby from the registry in the same step (a player that
also sits in *another* lobby stays there); the session is created Pending:
`IsActive = false` and `Countdown = 0` — `Session.Start` is not called by
this operation. -/
theorem startSessionFromLobby_spec :
    (∀ (m : Manager) (lobbyID sid : String) (q : Quote),
      lookupA m.lobbies lobbyID = none →
      m.startSessionFromLobby lobbyID sid q =
        (m, none, some .lobbyNotFound)) ∧
    (∀ (m : Manager) (lobbyID sid : String) (q : Quote) (l : Lobby),
      lookupA m.lobbies lobbyID = some l →
      sizeA l.players < 2 →
      m.startSessionFromLobby lobbyID sid q =
        (m, none, some .notEnoughPlayers)) ∧
    (∀ (m : Manager) (lobbyID sid : String) (q : Quote) (l : Lobby),
      lookupA m.lobbies lobbyID = some l →
      2 ≤ sizeA l.players →
      (sizeA l.players : Int) ≤ l.maxPlayers →
      (∀ kv ∈ l.players, kv.2.id = kv.1) →
      (keysA l.players).Nodup →
      ∃ s : Session,
        (m.startSessionFromLobby lobbyID sid q).2.1 = some s ∧
        (m.startSessionFromLobby lobbyID sid q).2.2 = none ∧
        s.maxPlayers = l.maxPlayers ∧
        keysA s.players = keysA l.players ∧
        s.isActive = false ∧
        s.countdown = 0 ∧
        s.prompt = q.content ∧
        s.id = sid ∧
        lookupA (m.startSessionFromLobby lobbyID sid q).1.lobbies lobbyID =
          none ∧
        lookupA (m.startSessionFromLobby lobbyID sid q).1.sessions sid =
          some s) := by
  refine ⟨?_, ?_, ?_⟩
  · intro m lobbyID sid q h
    unfold Manager.startSessionFromLobby
    rw [h]
  · intro m lobbyID sid q l h hlt
    unfold Manager.startSessionFromLobby
    rw [h]
    dsimp only
    rw [if_pos hlt]
  · intro m lobbyID sid q l h hge hcap hid hnd
    have hfold := foldAddPlayer_spec sid l.players
      (newSession sid q.content q.author l.maxPlayers) rfl hid
      (by simpa [newSession, keysA] using hnd)
      (by simpa [newSession, sizeA] using hcap)
    unfold Manager.startSessionFromLobby
    rw [h]
    dsimp only
    rw [if_neg (not_lt.mpr hge)]
    exact ⟨_, rfl, rfl, hfold.2.2.1, hfold.1, hfold.2.1, hfold.2.2.2.1,
      hfold.2.2.2.2.1, hfold.2.2.2.2.2,
      lookupA_eraseA_self _ _, lookupA_insertA_self _ _ _⟩

/-- C2 witness: the success branch applied to the single-lobby manager
`managerLobbyPQ`: the start succeeds and the lobby is removed. -/
theorem startSessionFromLobby_spec_witness :
    (managerLobbyPQ.startSessionFromLobby "A" "S" quoteHi).2.2 = none ∧
    lookupA (managerLobbyPQ.startSessionFromLobby "A" "S" quoteHi).1.lobbies
      "A" = none := by
  obtain ⟨s, hs⟩ := startSessionFromLobby_spec.2.2 managerLobbyPQ "A" "S"
    quoteHi lobbyPQ (by decide) (by decide) (by decide) (by decide)
    (by decide)
  exact ⟨hs.2.1, hs.2.2.2.2.2.2.2.2.1⟩

/-! ### C8 -/

/-- C8 counterexample: `CreateLobby` performs no capacity validation, so
`CreateLobby(-1)` registers a lobby that, while empty, already holds more
than its declared capacity (`0 > -1`): the claimed "every Lobby holds at
most its declared capacity in every reachable state" fails. -/
theorem negative_capacity_lobby_exceeds_capacity :
    lookupA (newManager.createLobby (-1) "L" 0).1.lobbies "L" =
      some (newManager.createLobby (-1) "L" 0).2.1 ∧
    ¬((sizeA (newManager.createLobby (-1) "L" 0).2.1.players : Int) ≤
        (newManager.createLobby (-1) "L" 0).2.1.maxPlayers) := by
  decide

/-- C8 amended: every join on a full lobby fails with `LobbyFull` (both
through `Manager.JoinLobby` and `Lobby.AddPlayer`), every add to a full
session fails with `SessionFull`, and consequently in every reachable
manager state each lobby and each session holds at most
`max(MaxPlayers, 0)` members — for the nonnegative capacities the program
uses this is exactly its declared capacity, while a lobby created with a
negative capacity trivially "exceeds" it while empty and can never be
joined. -/
theorem capacity_never_exceeded :
    (∀ (m : Manager) (pid lid : String) (p : Player) (l : Lobby),
      lookupA m.players pid = some p →
      lookupA m.lobbies lid = some l →
      (sizeA l.players : Int) ≥ l.maxPlayers →
      (m.joinLobby pid lid).2 = some .lobbyFull) ∧
    (∀ (l : Lobby) (p : Player), (sizeA l.players : Int) ≥ l.maxPlayers →
      l.addPlayer p = (l, some .lobbyFull)) ∧
    (∀ (s : Session) (p : Player), (sizeA s.players : Int) ≥ s.maxPlayers →
      s.addPlayer p = (s, some .sessionFull)) ∧
    (∀ m : Manager, Reachable m → CapInv m) := by
  refine ⟨?_, ?_, ?_, capInv_reachable⟩
  · intro m pid lid p l hp hl hfull
    unfold Manager.joinLobby
    rw [hp]
    dsimp only
    rw [hl]
    dsimp only
    rw [if_pos hfull]
  · intro l p hfull
    unfold Lobby.addPlayer
    rw [if_pos hfull]
  · intro s p hfull
    unfold Session.addPlayer
    rw [if_pos hfull]

/-- C8 witness: the invariant holds for the reachable manager with one
capacity-4 lobby, and adding to the full capacity-1 lobby fails. -/
theorem capacity_never_exceeded_witness :
    CapInv (newManager.createLobby 4 "L" 0).1 ∧
    fullLobby.addPlayer (newPlayer "q" "Q" "" 0) =
      (fullLobby, some .lobbyFull) :=
  ⟨capacity_never_exceeded.2.2.2 (newManager.createLobby 4 "L" 0).1
      (Reachable.createLobby 4 "L" 0 Reachable.new),
   capacity_never_exceeded.2.1 fullLobby (newPlayer "q" "Q" "" 0)
      (by decide)⟩

end TypeRacer
